import Mathlib

/-!
Verification of the retrieval and agent-loop core of the dgagent desktop
assistant, shallowly embedded from the TypeScript sources under
`src/electron/services/`.  Machine integers are modelled as `Nat`/`Int`;
asynchronous/fallible collaborators and builtins (the OpenAI model call,
the embedding call, the LanceDB vector table, `JSON.parse`,
`String.prototype.match`, `new RegExp` compilation, which may throw)
are modelled as explicit oracle parameters, while all in-repository logic
(branching, merging, scoring, slicing, the agent control loop) is
translated function by function.
-/

/-! ## JavaScript string and array primitives used by the services -/

/-- `String.prototype.toLowerCase` restricted to the character-by-character
case mapping (faithful on ASCII data, which is all the concrete inputs use). -/
def jsToLower (s : String) : String :=
  String.mk (s.data.map Char.toLower)

/-- Fuelled scan counting non-overlapping, leftmost-first occurrences of a
nonempty `p`; the scan position advances by at least one character per
step, so fuel `s.length` is always enough and the fuel-exhausted branch is
unreachable. -/
def countOccAux (p : List Char) : Nat → List Char → Nat
  | 0, _ => 0
  | _ + 1, [] => 0
  | fuel + 1, c :: rest =>
    if p.isPrefixOf (c :: rest) then
      1 + countOccAux p fuel (List.drop p.length (c :: rest))
    else
      countOccAux p fuel rest

/-- The match count `(s.match(new RegExp(p, 'g')) || []).length` for the
metacharacter-free fragment only: a pattern without regex metacharacters
compiles and matches literally, non-overlapping and leftmost-first.
Patterns containing metacharacters — whose compilation can throw a
`SyntaxError` (`"(("`) or match non-literally (`"a.c"`) — are the regex
engine's business and are modelled by the `compile` oracle of
`KB.keywordSearchE`, never by this function.  (The empty-pattern case
mirrors the JS empty-regex behaviour of one match per gap; the callers
only pass patterns of length ≥ 2.) -/
def countOcc (p s : String) : Nat :=
  if p.data = [] then s.data.length + 1
  else countOccAux p.data s.data.length s.data

/-- `hay.includes(needle)` for JS strings: substring containment. -/
def jsIncludes (hay needle : String) : Bool :=
  (List.range (hay.data.length + 1)).any
    (fun i => needle.data.isPrefixOf (hay.data.drop i))

/-- `String.prototype.trim`: strip leading and trailing whitespace
(the ASCII whitespace set). -/
def jsTrim (s : String) : String :=
  String.mk (((s.data.dropWhile Char.isWhitespace).reverse.dropWhile
    Char.isWhitespace).reverse)

/-- Split at every whitespace character, keeping empty pieces (as
`s.split(/\s/)` would; a subsequent length filter makes this agree with
`split(/\s+/)`). -/
def wsTokens : List Char → List Char → List String
  | acc, [] => [String.mk acc.reverse]
  | acc, c :: rest =>
    if c.isWhitespace then String.mk acc.reverse :: wsTokens [] rest
    else wsTokens (c :: acc) rest

/-- `query.toLowerCase().split(/\s+/).filter(k => k.length > 1)`:
after the length filter, splitting at every whitespace character agrees
with splitting at whitespace runs. -/
def queryKeywords (q : String) : List String :=
  (wsTokens [] (jsToLower q).data).filter (fun k => 1 < k.length)

/-- `arr.slice(-n)` on a JS array: the last `min n arr.length` elements —
except that `arr.slice(-0)` is `arr.slice(0)`, the whole array. -/
def jsSliceLast (l : List α) (n : Nat) : List α :=
  if n = 0 then l else l.drop (l.length - n)

/-! ## `src/electron/services/knowledgeBase.ts` — `KnowledgeBaseService`

`documents` is the in-memory flat list; each entry stores the chunk text
plus its metadata record, which we model by its (lowercase-insensitive)
JSON serialization `metaStr`, since the code only ever inspects metadata
through `JSON.stringify(doc.metadata)` and re-spreads it wholesale. -/

namespace KB

/-- One stored chunk: `{ text, metadata }`. -/
structure StoredDoc where
  text : String
  metaStr : String
  deriving DecidableEq, Repr

/-- An item returned by `search`/`keywordSearch`: `{ text, ...metadata, score? }`
(the recent-documents fallback and the raw vector rows carry no score). -/
structure SearchResult where
  text : String
  metaStr : String
  score : Option Nat
  deriving DecidableEq, Repr

/-- The `AIConfig` read through `globalConfig.getConfig()`. -/
structure AIConfig where
  apiKey : Option String
  baseUrl : Option String
  chatModel : Option String
  embeddingModel : Option String
  deriving DecidableEq, Repr

/-- `config.embeddingModel && config.embeddingModel.trim() !== ''`. -/
def embeddingConfigured (c : AIConfig) : Bool :=
  match c.embeddingModel with
  | none => false
  | some s => s ≠ "" && jsTrim s ≠ ""

/-- Per-document score in `keywordSearch`: occurrence count of every keyword
in the lowercased text, plus 2 for every keyword contained in the lowercased
metadata serialization. -/
def keywordScore (keywords : List String) (d : StoredDoc) : Nat :=
  let textLower := jsToLower d.text
  let base := (keywords.map (fun k => countOcc k textLower)).sum
  let metaLower := jsToLower d.metaStr
  let bonus := 2 * (keywords.filter (fun k => jsIncludes metaLower k)).length
  base + bonus

/-- Stable insertion into a list sorted by descending score: `x` (which
originally precedes every element of the list) goes before the first
element whose score does not exceed `x`'s, so ties keep the
earlier-scanned element first, as JS `Array.prototype.sort` is stable. -/
def insertByScoreDesc (x : StoredDoc × Nat) :
    List (StoredDoc × Nat) → List (StoredDoc × Nat)
  | [] => [x]
  | y :: ys => if y.2 ≤ x.2 then x :: y :: ys else y :: insertByScoreDesc x ys

/-- Stable sort by descending score (`.sort((a, b) => b.score - a.score)`):
inserting from the right end keeps the original order of equal scores. -/
def sortByScoreDesc : List (StoredDoc × Nat) → List (StoredDoc × Nat)
  | [] => []
  | x :: xs => insertByScoreDesc x (sortByScoreDesc xs)

/-- `KnowledgeBaseService.keywordSearch(query, limit)` (lines 211–252)
restricted to queries whose tokens all compile as literal patterns: score
every document, keep positive scores, sort descending (stably), truncate,
and project to `{ text, ...metadata, score }`.  The full model, in which
`new RegExp(keyword, 'g')` may throw out of the search, is
`keywordSearchE`; on literal-token queries the two agree
(`keywordSearchE_literal`). -/
def keywordSearch (docs : List StoredDoc) (query : String) (limit : Nat) :
    List SearchResult :=
  let keywords := queryKeywords query
  let scored := docs.map (fun d => (d, keywordScore keywords d))
  let results := (sortByScoreDesc (scored.filter (fun p => 0 < p.2))).take limit
  results.map (fun p => ⟨p.1.text, p.1.metaStr, some p.2⟩)

/-- The recent-documents fallback in `search` when `keywordSearch` comes back
empty: `this.documents.slice(-limit).map(doc => ({ text, ...metadata }))`. -/
def recentFallback (docs : List StoredDoc) (limit : Nat) : List SearchResult :=
  (jsSliceLast docs limit).map (fun d => ⟨d.text, d.metaStr, none⟩)

/-- Outcome of the vector-search attempt inside `search`: the LanceDB table
may be absent (`this.table` still null after `initDB`, no throw), the
embedding/table round-trip may throw (caught and logged), or it may
succeed with a list of rows. -/
inductive VectorOutcome where
  | noTable
  | failure
  | success (rows : List SearchResult)
  deriving DecidableEq, Repr

/-- `KnowledgeBaseService.search(query, limit)` (lines 254–291) on the
never-throwing (literal-token) fragment of the lexical path: if an
embedding model is configured and the vector path succeeds, its rows are
returned as-is; otherwise the keyword search runs, and when it matches
nothing the most recent documents are returned instead.  `searchE` below
is the same function over the throw-aware lexical path. -/
def search (cfg : AIConfig) (vec : VectorOutcome) (docs : List StoredDoc)
    (query : String) (limit : Nat) : List SearchResult :=
  let lexical :=
    let kw := keywordSearch docs query limit
    if kw = [] then recentFallback docs limit else kw
  if embeddingConfigured cfg then
    match vec with
    | .success rows => rows
    | _ => lexical
  else lexical

/-- The keyword-occurrence summation loop of `keywordSearch` (lines
222–226), with `new RegExp(keyword, 'g')` + `.match` as an oracle
`compile` that either throws (`.error`, a `SyntaxError` escaping the whole
search) or yields a match-counting function: keywords are compiled in
order and the first compilation failure aborts. -/
def sumMatchesE (compile : String → Except String (String → Nat))
    (textLower : String) : List String → Except String Nat
  | [] => .ok 0
  | k :: ks =>
    match compile k with
    | .error e => .error e
    | .ok f => (sumMatchesE compile textLower ks).map (fun rest => f textLower + rest)

/-- Per-document score under the regex-engine oracle: the occurrence sum
(which may throw) plus the metadata bonus (plain `includes`, no regex). -/
def keywordScoreE (compile : String → Except String (String → Nat))
    (keywords : List String) (d : StoredDoc) : Except String Nat :=
  (sumMatchesE compile (jsToLower d.text) keywords).map
    (fun base =>
      base + 2 * ((keywords.filter
        (fun k => jsIncludes (jsToLower d.metaStr) k)).length))

/-- `this.documents.map(doc => ({doc, score}))` with a thrown `SyntaxError`
aborting the whole map at the first document that trips it. -/
def mapScoresE (compile : String → Except String (String → Nat))
    (keywords : List String) : List StoredDoc → Except String (List (StoredDoc × Nat))
  | [] => .ok []
  | d :: ds =>
    match keywordScoreE compile keywords d with
    | .error e => .error e
    | .ok s =>
      match mapScoresE compile keywords ds with
      | .error e => .error e
      | .ok rest => .ok ((d, s) :: rest)

/-- `KnowledgeBaseService.keywordSearch` (lines 211–252), throw-aware:
no try/catch covers this path, so a `SyntaxError` from
`new RegExp(keyword, 'g')` propagates (it can only arise while scoring,
i.e. when at least one document is stored). -/
def keywordSearchE (compile : String → Except String (String → Nat))
    (docs : List StoredDoc) (query : String) (limit : Nat) :
    Except String (List SearchResult) :=
  let keywords := queryKeywords query
  (mapScoresE compile keywords docs).map
    (fun scored =>
      ((sortByScoreDesc (scored.filter (fun p => 0 < p.2))).take limit).map
        (fun p => ⟨p.1.text, p.1.metaStr, some p.2⟩))

/-- `KnowledgeBaseService.search(query, limit)` (lines 254–291) over the
throw-aware lexical path: the vector branch's failures are caught by its
own try/catch (already folded into `VectorOutcome`), but nothing catches a
lexical throw, which escapes to the caller. -/
def searchE (cfg : AIConfig) (vec : VectorOutcome)
    (compile : String → Except String (String → Nat))
    (docs : List StoredDoc) (query : String) (limit : Nat) :
    Except String (List SearchResult) :=
  let lexical :=
    match keywordSearchE compile docs query limit with
    | .error e => .error e
    | .ok kw => .ok (if kw = [] then recentFallback docs limit else kw)
  if embeddingConfigured cfg then
    match vec with
    | .success rows => .ok rows
    | _ => lexical
  else lexical

/-- Mutable service state relevant to `addDocument`: the in-memory document
list, its on-disk mirror (`documents.json`, rewritten wholesale by
`saveDocuments`), and the texts stored in the LanceDB vector table. -/
structure KBState where
  documents : List StoredDoc
  disk : List StoredDoc
  vectors : List String
  deriving DecidableEq, Repr

/-- `KnowledgeBaseService.addDocument(text, metadata)` (lines 110–147).
`splitText` stands for `RecursiveCharacterTextSplitter(1000, 200)
.createDocuments`; `vecAttempt` is the outcome of `addToVectorDB`
(lines 149–171), whose failure is caught and only logged.  The chunks are
appended to `documents` and saved before the vector attempt, and the call
returns the chunk count in every branch. -/
def addDocument (splitText : String → List String) (cfg : AIConfig)
    (vecAttempt : Except String Unit) (st : KBState)
    (text metaStr : String) : KBState × Nat :=
  let chunks := splitText text
  let newDocs := chunks.map (fun c => StoredDoc.mk c metaStr)
  let st1 : KBState :=
    { st with documents := st.documents ++ newDocs
              disk := st.documents ++ newDocs }
  if embeddingConfigured cfg then
    match vecAttempt with
    | .ok _ => ({ st1 with vectors := st1.vectors ++ chunks }, chunks.length)
    | .error _ => (st1, chunks.length)
  else (st1, chunks.length)

end KB

/-! ## `src/electron/services/multiLayerKB.ts` — `MultiLayerKnowledgeBase`

The `Map<KBLayer, KBDocument[]>` is modelled as a function from layers to
document lists; iteration order over its entries is the insertion order of
the literal, `[core, conversation, generated]`.  `Date.now()` and the
random id suffix are explicit parameters. -/

namespace MLKB

/-- The `KBLayer` enum. -/
inductive KBLayer where
  | core
  | conversation
  | generated
  deriving DecidableEq, Repr

/-- Entry iteration order of the `documents` map (its literal insertion order). -/
def layerOrder : List KBLayer := [.core, .conversation, .generated]

/-- The `metadata` record of a `KBDocument`.  Optional fields are `Option`s;
the open index signature is not needed by any operation under verification. -/
structure KBMetadata where
  source : Option String
  type : Option String
  tags : Option (List String)
  createdAt : Nat
  updatedAt : Nat
  importance : Option String
  verified : Option Bool
  deriving DecidableEq, Repr

/-- A stored `KBDocument`. -/
structure KBDocument where
  id : String
  layer : KBLayer
  title : String
  content : String
  metadata : KBMetadata
  deriving DecidableEq, Repr

/-- Service state: per-layer in-memory lists plus the per-layer `index.json`
files rewritten wholesale by `saveLayer`. -/
structure MLState where
  documents : KBLayer → List KBDocument
  disk : KBLayer → List KBDocument

/-- The document argument of `addDocument` (no `id`/`layer` yet). -/
structure NewDoc where
  title : String
  content : String
  metadata : KBMetadata
  deriving DecidableEq, Repr

/-- String tag of a layer (used in generated ids). -/
def KBLayer.tag : KBLayer → String
  | .core => "core"
  | .conversation => "conversation"
  | .generated => "generated"

/-- The full document built by `addDocument` (lines 103–123):
`id = layer-Date.now()-random`, `createdAt = doc.metadata.createdAt || now`,
`updatedAt = now`. -/
def mkFullDoc (layer : KBLayer) (d : NewDoc) (now : Nat) (rand : String) :
    KBDocument :=
  { id := layer.tag ++ "-" ++ toString now ++ "-" ++ rand
    layer := layer
    title := d.title
    content := d.content
    metadata :=
      { d.metadata with
          createdAt := if d.metadata.createdAt = 0 then now else d.metadata.createdAt
          updatedAt := now } }

/-- `MultiLayerKnowledgeBase.addDocument(layer, doc)`: push onto the layer's
list and rewrite that layer's index file. -/
def addDocument (st : MLState) (layer : KBLayer) (d : NewDoc) (now : Nat)
    (rand : String) : String × MLState :=
  let fullDoc := mkFullDoc layer d now rand
  let newList := st.documents layer ++ [fullDoc]
  ( fullDoc.id
  , { documents := fun l => if l = layer then newList else st.documents l
      disk := fun l => if l = layer then newList else st.disk l } )

/-- Partial update of the metadata record (`Partial<KBDocument['metadata']>`). -/
structure MetaUpdates where
  source : Option String := none
  type : Option String := none
  tags : Option (List String) := none
  createdAt : Option Nat := none
  updatedAt : Option Nat := none
  importance : Option String := none
  verified : Option Bool := none
  deriving DecidableEq, Repr

/-- Partial update of a document
(`Partial<Omit<KBDocument, 'metadata'>> & { metadata?: ... }`). -/
structure DocUpdates where
  id : Option String := none
  layer : Option KBLayer := none
  title : Option String := none
  content : Option String := none
  metadata : Option MetaUpdates := none
  deriving DecidableEq, Repr

/-- The object-spread merge performed by `updateDocument` (lines 130–138):
`{ ...old, ...updates, metadata: { ...old.metadata, ...updates.metadata,
updatedAt: Date.now() } }`. -/
def mergeDoc (old : KBDocument) (u : DocUpdates) (now : Nat) : KBDocument :=
  let mu := u.metadata.getD {}
  { id := u.id.getD old.id
    layer := u.layer.getD old.layer
    title := u.title.getD old.title
    content := u.content.getD old.content
    metadata :=
      { source := mu.source.orElse (fun _ => old.metadata.source)
        type := mu.type.orElse (fun _ => old.metadata.type)
        tags := mu.tags.orElse (fun _ => old.metadata.tags)
        createdAt := mu.createdAt.getD old.metadata.createdAt
        updatedAt := now
        importance := mu.importance.orElse (fun _ => old.metadata.importance)
        verified := mu.verified.orElse (fun _ => old.metadata.verified) } }

/-- Replace the first document whose `id` matches (the
`findIndex` / `docs[index] = ...` pair); `none` when no match. -/
def updateFirst (id : String) (u : DocUpdates) (now : Nat) :
    List KBDocument → Option (List KBDocument)
  | [] => none
  | d :: ds =>
    if d.id = id then some (mergeDoc d u now :: ds)
    else (updateFirst id u now ds).map (fun t => d :: t)

/-- Scan the layers in map-entry order; on the first hit, assign the merged
document and rewrite that layer's file. -/
def updateInLayers (st : MLState) (id : String) (u : DocUpdates) (now : Nat) :
    List KBLayer → Bool × MLState
  | [] => (false, st)
  | l :: ls =>
    match updateFirst id u now (st.documents l) with
    | some newList =>
      ( true
      , { documents := fun l' => if l' = l then newList else st.documents l'
          disk := fun l' => if l' = l then newList else st.disk l' } )
    | none => updateInLayers st id u now ls

/-- `MultiLayerKnowledgeBase.updateDocument(id, updates)` (lines 126–145). -/
def updateDocument (st : MLState) (id : String) (u : DocUpdates) (now : Nat) :
    Bool × MLState :=
  updateInLayers st id u now layerOrder

/-- The match predicate of `search` (lines 173–177): lowercased substring
containment on title, content, or any tag. -/
def docMatches (queryLower : String) (d : KBDocument) : Bool :=
  jsIncludes (jsToLower d.title) queryLower ||
  jsIncludes (jsToLower d.content) queryLower ||
  (match d.metadata.tags with
   | some tags => tags.any (fun t => jsIncludes (jsToLower t) queryLower)
   | none => false)

/-- `MultiLayerKnowledgeBase.search(query, layers)` (lines 167–182):
filtered matches pushed layer by layer in the order given by the caller. -/
def search (st : MLState) (query : String) (layers : List KBLayer) :
    List KBDocument :=
  let queryLower := jsToLower query
  layers.foldl (fun results l =>
    results ++ (st.documents l).filter (docMatches queryLower)) []

/-- Layer consistency: every document stored under layer `l` carries
`layer = l` (true of every state reachable through `addDocument`). -/
def WellFormed (st : MLState) : Prop :=
  ∀ l d, d ∈ st.documents l → d.layer = l

end MLKB

/-! ## `src/electron/services/conversationManager.ts` — `ConversationManager`

The `Map<string, Conversation>` is modelled as a partial function keyed by
conversation id (its insertion order only influences `getAllConversations`,
which no claim touches).  `Date.now()` and `Math.random()` are explicit
parameters. -/

namespace Conv

/-- A message attachment `{ type, path, name }`. -/
structure Attachment where
  type : String
  path : String
  name : String
  deriving DecidableEq, Repr

/-- `role: 'user' | 'assistant'`. -/
inductive Role where
  | user
  | assistant
  deriving DecidableEq, Repr

/-- A conversation `Message`. -/
structure Message where
  id : String
  role : Role
  content : String
  timestamp : Nat
  attachments : Option (List Attachment)
  deriving DecidableEq, Repr

/-- A `Conversation` record. -/
structure Conversation where
  id : String
  title : String
  messages : List Message
  createdAt : Nat
  updatedAt : Nat
  deriving DecidableEq, Repr

/-- Manager state: the conversations map and the current-conversation pointer. -/
structure ConvState where
  conversations : String → Option Conversation
  currentId : Option String

/-- Store `c` under map key `key` (both `Map.set` and the in-place mutation
of the object already held under `key`). -/
def putConv (st : ConvState) (key : String) (c : Conversation) :
    String → Option Conversation :=
  fun i => if i = key then some c else st.conversations i

/-- `ConversationManager.createConversation(title?)` (lines 80–96):
the new id is `Date.now().toString()`. -/
def createConversation (st : ConvState) (now : Nat) (title : Option String) :
    String × ConvState :=
  let id := toString now
  let c : Conversation :=
    { id := id
      title := title.getD "New Conversation"
      messages := []
      createdAt := now
      updatedAt := now }
  (id, { conversations := putConv st id c, currentId := some id })

/-- `ConversationManager.getCurrentConversation()`. -/
def getCurrentConversation (st : ConvState) : Option Conversation :=
  match st.currentId with
  | none => none
  | some i => st.conversations i

/-- `ConversationManager.addMessage(role, content, attachments?)`
(lines 99–128).  Creates a conversation when none is current; throws
(`Except.error`) when the current pointer is dangling; otherwise appends
the new message, bumps `updatedAt`, and applies the one-time placeholder
title swap. -/
def addMessage (st : ConvState) (now : Nat) (rand : String) (role : Role)
    (content : String) (attachments : Option (List Attachment)) :
    Except String (Message × ConvState) :=
  let st1 := if st.currentId.isNone then (createConversation st now none).2 else st
  match st1.currentId with
  | none => .error "Current conversation not found"
  | some cid =>
    match st1.conversations cid with
    | none => .error "Current conversation not found"
    | some conversation =>
      let message : Message :=
        { id := toString now ++ "-" ++ rand
          role := role
          content := content
          timestamp := now
          attachments := attachments }
      let withMsg :=
        { conversation with
            messages := conversation.messages ++ [message]
            updatedAt := now }
      let conversation' :=
        if withMsg.messages.length = 1 && role == .user &&
           withMsg.title == "New Conversation" then
          { withMsg with title := "Generating title..." }
        else withMsg
      .ok (message, { st1 with conversations := putConv st1 cid conversation' })

/-- `ConversationManager.updateConversationTitle(id, title)` (lines 131–138). -/
def updateConversationTitle (st : ConvState) (id title : String) : ConvState :=
  match st.conversations id with
  | none => st
  | some c => { st with conversations := putConv st id { c with title := title } }

/-- `ConversationManager.switchConversation(id)` (lines 153–159). -/
def switchConversation (st : ConvState) (id : String) : Bool × ConvState :=
  if (st.conversations id).isSome then (true, { st with currentId := some id })
  else (false, st)

/-- `ConversationManager.deleteConversation(id)` (lines 162–171). -/
def deleteConversation (st : ConvState) (id : String) : Bool × ConvState :=
  match st.conversations id with
  | none => (false, st)
  | some _ =>
    ( true
    , { conversations := fun i => if i = id then none else st.conversations i
        currentId := if st.currentId = some id then none else st.currentId } )

/-- `ConversationManager.getRecentMessages(limit)` (lines 174–179):
`messages.slice(-limit)` of the current conversation, `[]` when none. -/
def getRecentMessages (st : ConvState) (limit : Nat) : List Message :=
  match getCurrentConversation st with
  | none => []
  | some conversation => jsSliceLast conversation.messages limit

/-- The public mutating operations, for stating append-only invariants. -/
inductive ConvOp where
  | create (now : Nat) (title : Option String)
  | add (now : Nat) (rand : String) (role : Role) (content : String)
        (attachments : Option (List Attachment))
  | updTitle (id title : String)
  | switch (id : String)
  | del (id : String)

/-- Apply an operation to the state (a thrown `addMessage` leaves the state
as it was when the exception propagated). -/
def applyOp (st : ConvState) : ConvOp → ConvState
  | .create now title => (createConversation st now title).2
  | .add now rand role content atts =>
    match addMessage st now rand role content atts with
    | .ok (_, st') => st'
    | .error _ => if st.currentId.isNone then (createConversation st now none).2 else st
  | .updTitle id title => updateConversationTitle st id title
  | .switch id => (switchConversation st id).2
  | .del id => (deleteConversation st id).2

/-- Freshness of the ids minted by `Date.now()`: an operation that creates a
conversation does not reuse an existing id (real clocks are monotone, so a
collision with a previously created conversation cannot occur). -/
def FreshIds (st : ConvState) : ConvOp → Prop
  | .create now _ => st.conversations (toString now) = none
  | .add now _ _ _ _ =>
    st.currentId.isNone → st.conversations (toString now) = none
  | _ => True

end Conv

/-! ## `src/electron/services/aiAgent.ts` — `AIAgentService.chat`, agent mode

The external model call is an oracle `model : Nat → String` giving the raw
text of the k-th invocation; tool executions (whose failures the dispatch
code converts to observation strings before they can escape) are an oracle
`toolOut : Nat → String`.  `String.prototype.match` against the four
literal tool-call regexes and `JSON.parse` are JS builtins, modelled as
oracles `jsMatch` and `jsonParse`; everything else — the fallback chain,
the payload cleanup, tool-name normalization, the pseudo-tool and registry
checks, dispatch bookkeeping and the iteration budget — is translated from
the source. -/

namespace Agent

/-- A JSON value as produced by `JSON.parse`. -/
inductive JsVal where
  | jsNull
  | jsBool (b : Bool)
  | jsNum (n : Int)
  | jsStr (s : String)
  | jsArr (elems : List JsVal)
  | jsObj (fields : List (String × JsVal))

/-- JS truthiness (`NaN` aside, which `JSON.parse` cannot produce). -/
def truthy : JsVal → Bool
  | .jsNull => false
  | .jsBool b => b
  | .jsNum n => n != 0
  | .jsStr s => s != ""
  | .jsArr _ => true
  | .jsObj _ => true

/-- Property access `v.k` on a parsed JSON value: `none` is `undefined`.
(`JSON.parse` output has unique keys, later duplicates having won.) -/
def getField (v : JsVal) (k : String) : Option JsVal :=
  match v with
  | .jsObj fields => (fields.find? (fun f => f.1 = k)).map (fun f => f.2)
  | _ => none

/-- The four tool-call extraction regexes tried in order (lines 551–567):
a ```json fence, any fence containing `"tool"`, an unclosed fence, and a
loose brace-delimited `"tool"` object. -/
inductive ToolRegex where
  | jsonFence
  | anyFenceTool
  | unclosedFenceTool
  | rawToolObject
  deriving DecidableEq, Repr

/-- The cascade `jsonMatch = ... || ... || ... || ...`: first regex that
matches wins, yielding its capture group 1. -/
def extractToolJson (jsMatch : ToolRegex → String → Option String)
    (content : String) : Option String :=
  match jsMatch .jsonFence content with
  | some m => some m
  | none =>
    match jsMatch .anyFenceTool content with
    | some m => some m
    | none =>
      match jsMatch .unclosedFenceTool content with
      | some m => some m
      | none => jsMatch .rawToolObject content

/-- Index of the last occurrence of `c`. -/
def lastIdxOf (c : Char) (l : List Char) : Option Nat :=
  match l with
  | [] => none
  | x :: xs =>
    match lastIdxOf c xs with
    | some i => some (i + 1)
    | none => if x = c then some 0 else none

/-- The payload cleanup before parsing (lines 572–577): trim, then drop
anything after the last `\x7d`. -/
def cleanupJson (s : String) : String :=
  let t := jsTrim s
  match lastIdxOf (Char.ofNat 125) t.data with
  | none => t
  | some i => if i + 1 < t.data.length then String.mk (t.data.take (i + 1)) else t

/-- Suffix after the first `|>` token, stopping at line terminators
(the `.` of the lazy regex does not cross them); `none` when the span
cannot close. -/
def afterPipeGt : List Char → Option (List Char)
  | [] => none
  | [_] => none
  | c :: c' :: rest =>
    if c = '\n' || c = '\r' then none
    else if c = '|' && c' = '>' then some rest
    else afterPipeGt (c' :: rest)

/-- Fuelled left-to-right scan for `replace(/<\|.*?\|>/g, '')`: on seeing
`<|`, the nearest closer found by `afterPipeGt` ends the removed span and
scanning resumes after it; without a closer the characters stay.  The scan
position advances by at least one character per step, so fuel `l.length`
is always enough and the fuel-exhausted branch is unreachable. -/
def stripCtrlAux : Nat → List Char → List Char
  | 0, l => l
  | _ + 1, [] => []
  | _ + 1, [c] => [c]
  | fuel + 1, c :: c' :: rest =>
    if c = '<' && c' = '|' then
      match afterPipeGt rest with
      | some tail => stripCtrlAux fuel tail
      | none => c :: stripCtrlAux fuel (c' :: rest)
    else c :: stripCtrlAux fuel (c' :: rest)

/-- `s.replace(/<\|.*?\|>/g, '')`: each lazily-matched `<| ... |>` span
(not crossing a line terminator) is removed, scanning left to right. -/
def stripCtrl (s : String) : String :=
  String.mk (stripCtrlAux s.data.length s.data)

/-- Tool-name normalization (lines 584–586): a truthy string gets its
control tokens stripped and is trimmed; anything else is left alone. -/
def normalizeToolName : Option JsVal → Option JsVal
  | some (.jsStr s) => if s ≠ "" then some (.jsStr (jsTrim (stripCtrl s))) else some (.jsStr s)
  | t => t

/-- The final-answer pseudo-tool check (line 589): falsy name, or one of the
literal alias strings. -/
def isPseudoTool : Option JsVal → Bool
  | none => true
  | some v =>
    !truthy v ||
    (match v with
     | .jsStr s =>
       s == "null" || s == "undefined" || s == "respond" || s == "answer" ||
       s == "final_answer" || s == "response"
     | _ => false)

/-- The tool registry accepted by the dispatch guard (line 610): the three
locally defined tools plus the four specially-handled search tools.
(`run_python` and `generate_image` have dispatch branches but are absent
from this guard, so calls to them fall through as unknown tools.) -/
def realToolNames : List String :=
  ["read_file", "create_plan", "mark_step_completed",
   "search_pubmed", "search_web", "search_pubmed_full", "search_knowledge_base"]

/-- `tools.some(...) || [...].includes(toolName)`: only a string name can
pass. -/
def isRealTool : Option JsVal → Bool
  | some (.jsStr s) => realToolNames.contains s
  | _ => false

/-- `toolCallData.args || {}`. -/
def jsArgs (data : JsVal) : JsVal :=
  match getField data "args" with
  | some v => if truthy v then v else .jsObj []
  | none => .jsObj []

/-- Strip-and-trim applied to the final response when it is a string
(lines 602–604). -/
def postStrip : JsVal → JsVal
  | .jsStr s => .jsStr (jsTrim (stripCtrl s))
  | v => v

/-- Payload extraction for a pseudo-tool call (lines 593–599): the first
truthy of `response`/`answer`/`content`, else truthy-string `args`, else
the whole model output. -/
def extractAnswerPayload (data : JsVal) (content : String) : JsVal :=
  let fieldOr (k : String) (alt : JsVal) : JsVal :=
    match getField data k with
    | some v => if truthy v then v else alt
    | none => alt
  let chained := fieldOr "response" (fieldOr "answer" (fieldOr "content" .jsNull))
  postStrip
    (if truthy chained then chained
     else
       match jsArgs data with
       | .jsStr s => .jsStr s
       | _ => .jsStr content)

/-- A message on the running list: system prompt, human turn (user input or
tool observation), or raw model output. -/
inductive AgentMsg where
  | system (s : String)
  | human (s : String)
  | assistant (s : String)
  deriving DecidableEq, Repr

/-- The observation turn pushed after a dispatch (line 694). -/
def obsMsg (toolName output : String) : String :=
  "Tool \x27" ++ toolName ++ "\x27 output:\n" ++ output

/-- Result of the agent loop: the value left in `finalResponse` (a `JsVal`,
since the pseudo-tool path can store non-string payloads), the dispatched
tool calls in order, the value of `iterations` at exit, and the message
list. -/
structure LoopResult where
  answer : JsVal
  dispatched : List (String × JsVal)
  iterations : Nat
  messages : List AgentMsg

/-- `MAX_ITERATIONS` (line 542). -/
def MAX_ITERATIONS : Nat := 15

/-- The apology emitted when the iteration budget is exhausted (line 712). -/
def iterationLimitMsg : String :=
  "I\x27m sorry, I couldn\x27t complete the task within the iteration limit."

/-- One pass of the `while (iterations < MAX_ITERATIONS)` loop
(lines 544–709), fuelled so that `fuel = MAX_ITERATIONS - iterations`:
invoke the model, push its output, try the extraction cascade; no match or
unparseable JSON ⇒ the raw text is the final answer; a pseudo-tool name ⇒
the extracted payload is the final answer; an unregistered name ⇒ the raw
text is the final answer; a registered tool ⇒ dispatch, push the
observation, increment `iterations`, continue. -/
def loopAux (model : Nat → String) (toolOut : Nat → String)
    (jsMatch : ToolRegex → String → Option String)
    (jsonParse : String → Option JsVal) :
    Nat → Nat → List (String × JsVal) → List AgentMsg → LoopResult
  | 0, iter, disp, msgs => ⟨.jsStr "", disp, iter, msgs⟩
  | fuel + 1, iter, disp, msgs =>
    let content := model iter
    let msgs1 := msgs ++ [.assistant content]
    match extractToolJson jsMatch content with
    | none => ⟨.jsStr content, disp, iter, msgs1⟩
    | some payload =>
      match jsonParse (cleanupJson payload) with
      | none => ⟨.jsStr content, disp, iter, msgs1⟩
      | some data =>
        let toolName := normalizeToolName (getField data "tool")
        if isPseudoTool toolName then
          ⟨extractAnswerPayload data content, disp, iter, msgs1⟩
        else if isRealTool toolName then
          match toolName with
          | some (.jsStr name) =>
            loopAux model toolOut jsMatch jsonParse fuel (iter + 1)
              (disp ++ [(name, jsArgs data)])
              (msgs1 ++ [.human (obsMsg name (toolOut iter))])
          | _ => ⟨.jsStr content, disp, iter, msgs1⟩
        else ⟨.jsStr content, disp, iter, msgs1⟩

/-- The agent-mode body of `AIAgentService.chat` from the top of the loop:
run the loop from `iterations = 0`, then apply the post-loop guard
`if (!finalResponse && iterations >= MAX_ITERATIONS)` that swaps in the
apology (lines 711–713). -/
def chatAgentLoop (model : Nat → String) (toolOut : Nat → String)
    (jsMatch : ToolRegex → String → Option String)
    (jsonParse : String → Option JsVal) (initMsgs : List AgentMsg) :
    LoopResult :=
  let r := loopAux model toolOut jsMatch jsonParse MAX_ITERATIONS 0 [] initMsgs
  if !truthy r.answer && MAX_ITERATIONS ≤ r.iterations then
    { r with answer := .jsStr iterationLimitMsg }
  else r

/-- The model output at step `k` parses (through the full cascade,
cleanup, `JSON.parse`, and name normalization) to a call of a registered
tool. -/
def YieldsRealToolCall (jsMatch : ToolRegex → String → Option String)
    (jsonParse : String → Option JsVal) (content : String) : Prop :=
  ∃ payload data name,
    extractToolJson jsMatch content = some payload ∧
    jsonParse (cleanupJson payload) = some data ∧
    normalizeToolName (getField data "tool") = some (.jsStr name) ∧
    realToolNames.contains name = true

end Agent

/-! ## `src/electron/services/pythonService.ts` — `PythonService.runCode`

`runCode` wraps a spawned subprocess in a promise with three possible
settlements: the `close` handler, the `error` handler, and an unconditional
10-second timeout that kills the process and resolves with a fixed string.
A promise keeps its first settlement, so the subprocess behaviour is
modelled as the (optional) times of its `close` and `error` events and the
result is the earliest settlement. -/

namespace Py

/-- A settled promise: `resolve` or `reject` with a message. -/
inductive Settled where
  | resolved (s : String)
  | rejected (s : String)
  deriving DecidableEq, Repr

/-- What the spawned process does: an optional `close` event
`(timeMs, exitCode, stdout, stderr)` — `exitCode = none` models JS `null`
for a signal-killed process — and an optional `error` event. -/
structure ProcBehavior where
  closeEv : Option (Nat × Option Int × String × String)
  errEv : Option (Nat × String)
  deriving DecidableEq, Repr

/-- `String(code)` for the exit code in the failure message. -/
def exitCodeStr : Option Int → String
  | none => "null"
  | some n => toString n

/-- The value passed to `resolve` by the `close` handler (lines 36–43). -/
def closeValue (code : Option Int) (out err : String) : Settled :=
  if code ≠ some 0 then
    .resolved ("Execution failed (Exit code " ++ exitCodeStr code ++ "):\n" ++ err)
  else
    .resolved (if out ≠ "" then out else if err ≠ "" then err else "[No output]")

/-- The timeout in milliseconds (line 53). -/
def TIMEOUT_MS : Nat := 10000

/-- The timeout observation string (line 52). -/
def timeoutMsg : String := "Execution timed out after 10 seconds."

/-- All scheduled settlements with their times: the `close` handler, the
`error` handler, and the always-armed kill-and-resolve timeout. -/
def settlements (b : ProcBehavior) : List (Nat × Settled) :=
  (match b.closeEv with
   | some (t, code, out, err) => [(t, closeValue code out err)]
   | none => []) ++
  (match b.errEv with
   | some (t, m) => [(t, .rejected ("Failed to start Python process: " ++ m))]
   | none => []) ++
  [(TIMEOUT_MS, .resolved timeoutMsg)]

/-- First settlement wins: earliest time, earlier-listed on a tie. -/
def firstSettlement : List (Nat × Settled) → Option (Nat × Settled)
  | [] => none
  | e :: es =>
    match firstSettlement es with
    | none => some e
    | some best => if e.1 ≤ best.1 then some e else some best

/-- The promise returned by `PythonService.runCode` (lines 14–55), as its
eventual settlement. -/
def runCodeResult (b : ProcBehavior) : Option Settled :=
  (firstSettlement (settlements b)).map (fun e => e.2)

/-- The subprocess is still running when the 10-second timer fires, so the
`pythonProcess.kill()` in the timeout callback actually terminates it. -/
def killedByTimeout (b : ProcBehavior) : Bool :=
  match b.closeEv with
  | none => true
  | some (t, _, _, _) => TIMEOUT_MS < t

end Py



/-! # Theorems settling the claims -/

/-- On a query all of whose tokens compile to literal matchers, the
occurrence summation never throws and is the literal count sum. -/
theorem sumMatchesE_literal (compile : String → Except String (String → Nat))
    (t : String) :
    ∀ ks : List String, (∀ k ∈ ks, compile k = .ok (countOcc k)) →
      KB.sumMatchesE compile t ks = .ok ((ks.map (fun k => countOcc k t)).sum) := by
  intro ks
  induction ks with
  | nil => intro _; rfl
  | cons k ks ih =>
    intro h
    have hk := h k (List.mem_cons_self k ks)
    simp only [KB.sumMatchesE, hk, List.map_cons, List.sum_cons]
    rw [ih (fun x hx => h x (List.mem_cons_of_mem k hx))]
    rfl

/-- Literal-token scoring never throws and equals the pure score. -/
theorem keywordScoreE_literal (compile : String → Except String (String → Nat))
    (keywords : List String) (d : KB.StoredDoc)
    (h : ∀ k ∈ keywords, compile k = .ok (countOcc k)) :
    KB.keywordScoreE compile keywords d = .ok (KB.keywordScore keywords d) := by
  simp only [KB.keywordScoreE, sumMatchesE_literal compile _ keywords h]
  rfl

/-- Literal-token document scanning never throws and equals the pure map. -/
theorem mapScoresE_literal (compile : String → Except String (String → Nat))
    (keywords : List String)
    (h : ∀ k ∈ keywords, compile k = .ok (countOcc k)) :
    ∀ docs : List KB.StoredDoc,
      KB.mapScoresE compile keywords docs =
        .ok (docs.map (fun d => (d, KB.keywordScore keywords d))) := by
  intro docs
  induction docs with
  | nil => rfl
  | cons d ds ih =>
    simp only [KB.mapScoresE, keywordScoreE_literal compile keywords d h, ih,
      List.map_cons]

/-- On a literal-token query the throw-aware keyword search never throws
and coincides with the pure `keywordSearch`. -/
theorem keywordSearchE_literal (compile : String → Except String (String → Nat))
    (docs : List KB.StoredDoc) (q : String) (lim : Nat)
    (h : ∀ k ∈ queryKeywords q, compile k = .ok (countOcc k)) :
    KB.keywordSearchE compile docs q lim = .ok (KB.keywordSearch docs q lim) := by
  simp only [KB.keywordSearchE, mapScoresE_literal compile (queryKeywords q) h docs]
  rfl

/-- C1 (claim as stated, counterexample): with no embedding model
configured and one stored document "hello world", the query "zzzz"
matches zero stored documents (`keywordSearch` returns `[]`), yet
`search` does not return the empty list — it returns the stored document
through the recent-documents fallback; and the claim's "never throws" is
also false: the query `"(("`, whose token is an invalid regular
expression (`new RegExp("((")` raises a `SyntaxError` in JS, reflected by
the `compile` oracle), makes the search throw on the same non-empty
store. -/
theorem C1_counterexample :
    KB.keywordSearch [⟨"hello world", "resume"⟩] "zzzz" 5 = [] ∧
    KB.searchE ⟨some "key", none, none, none⟩ .noTable
        (fun k => .ok (countOcc k)) [⟨"hello world", "resume"⟩] "zzzz" 5 =
      .ok [⟨"hello world", "resume", none⟩] ∧
    KB.searchE ⟨some "key", none, none, none⟩ .noTable
        (fun k => if k = "((" then
            .error "SyntaxError: Invalid regular expression"
          else .ok (countOcc k))
        [⟨"hello world", "resume"⟩] "((" 5 =
      .error "SyntaxError: Invalid regular expression" := by
  refine ⟨by decide, by rfl, by rfl⟩

/-- C1 (amended): with no embedding model configured, `search` takes only
the lexical path — its outcome is independent of the vector backend.  On a
query all of whose searched tokens compile to literal matchers it does not
throw: it returns the keyword results, falling back to the most recent
`min(limit, count)` stored documents when nothing matches, hence `[]`
exactly when the store is empty (and an empty store never throws at all,
since scoring never runs).  But when the first searched token fails to
compile (an invalid regular expression) and the store is non-empty, the
`SyntaxError` escapes the search. -/
theorem C1_lexical_only_search :
    ∀ (cfg : KB.AIConfig) (vec vec' : KB.VectorOutcome)
      (compile : String → Except String (String → Nat))
      (docs : List KB.StoredDoc) (q : String) (lim : Nat),
      KB.embeddingConfigured cfg = false →
      KB.searchE cfg vec compile docs q lim =
          KB.searchE cfg vec' compile docs q lim ∧
      ((∀ k ∈ queryKeywords q, compile k = .ok (countOcc k)) →
        KB.searchE cfg vec compile docs q lim =
          .ok (if KB.keywordSearch docs q lim = []
               then KB.recentFallback docs lim
               else KB.keywordSearch docs q lim)) ∧
      (docs = [] → KB.searchE cfg vec compile docs q lim = .ok []) ∧
      (∀ k ks e, queryKeywords q = k :: ks → compile k = .error e →
        docs ≠ [] → KB.searchE cfg vec compile docs q lim = .error e) := by
  intro cfg vec vec' compile docs q lim h
  refine ⟨?_, ?_, ?_, ?_⟩
  · simp [KB.searchE, h]
  · intro hlit
    simp [KB.searchE, h, keywordSearchE_literal compile docs q lim hlit]
  · rintro rfl
    have hkw : KB.keywordSearchE compile [] q lim = .ok [] := by
      simp [KB.keywordSearchE, KB.mapScoresE, KB.sortByScoreDesc, Except.map]
    cases lim <;>
      simp [KB.searchE, h, hkw, KB.recentFallback, jsSliceLast]
  · intro k ks e hq hk hne
    cases docs with
    | nil => exact absurd rfl hne
    | cons d ds =>
      simp [KB.searchE, h, KB.keywordSearchE, hq, KB.mapScoresE,
        KB.keywordScoreE, KB.sumMatchesE, hk, Except.map]

/-- C1 witness: a concrete literal-token lexical search. -/
theorem C1_lexical_only_search_witness :
    KB.embeddingConfigured ⟨some "key", none, none, none⟩ = false ∧
    KB.searchE ⟨some "key", none, none, none⟩ .noTable
        (fun k => .ok (countOcc k)) [⟨"resume doc", "m"⟩] "resume" 3 =
      .ok [⟨"resume doc", "m", some 1⟩] :=
  ⟨by decide,
   ((C1_lexical_only_search ⟨some "key", none, none, none⟩ .noTable .failure
      (fun k => .ok (countOcc k)) [⟨"resume doc", "m"⟩] "resume" 3
      (by decide)).2.1 (fun k _ => rfl)).trans (by rfl)⟩

/-- C3 (claim as stated, counterexample): with an embedding model
configured, the chunk text "xx" is returned both by the vector path (here
twice, as the vector table stores duplicate chunks) and by the lexical
path, yet the list returned by `search` contains that text twice, not
exactly once — no merge or text-level deduplication happens. -/
theorem C3_counterexample :
    (KB.keywordSearch [⟨"xx", "m"⟩] "xx" 5).map (fun r => r.text) = ["xx"] ∧
    KB.search ⟨some "key", none, none, some "emb"⟩
        (.success [⟨"xx", "m", none⟩, ⟨"xx", "m", none⟩]) [⟨"xx", "m"⟩] "xx" 5 =
      [⟨"xx", "m", none⟩, ⟨"xx", "m", none⟩] ∧
    ((KB.search ⟨some "key", none, none, some "emb"⟩
        (.success [⟨"xx", "m", none⟩, ⟨"xx", "m", none⟩]) [⟨"xx", "m"⟩] "xx" 5).filter
      (fun r => r.text == "xx")).length = 2 := by
  refine ⟨by decide, by decide, by decide⟩

/-- C3 (amended): `search` performs no hybrid merge at all.  With an
embedding model configured, a successful vector query returns exactly the
vector rows (lexical results are never appended, and a text returned by
both paths appears as many times as the vector rows carry it); when the
vector table is absent or the vector path throws, the result is exactly
the lexical result (keyword matches, or the recent-documents fallback when
there are none). -/
theorem C3_no_merge :
    ∀ (cfg : KB.AIConfig) (docs : List KB.StoredDoc) (q : String) (lim : Nat),
      KB.embeddingConfigured cfg = true →
      (∀ rows, KB.search cfg (.success rows) docs q lim = rows) ∧
      (∀ vec, vec = KB.VectorOutcome.noTable ∨ vec = KB.VectorOutcome.failure →
        KB.search cfg vec docs q lim =
          if KB.keywordSearch docs q lim = [] then KB.recentFallback docs lim
          else KB.keywordSearch docs q lim) := by
  intro cfg docs q lim h
  constructor
  · intro rows
    simp [KB.search, h]
  · rintro vec (rfl | rfl) <;> simp [KB.search, h]

/-- C3 witness: a successful vector query returns its rows unchanged. -/
theorem C3_no_merge_witness :
    KB.embeddingConfigured ⟨some "key", none, none, some "emb"⟩ = true ∧
    KB.search ⟨some "key", none, none, some "emb"⟩ (.success [⟨"a", "m", none⟩])
        [⟨"b", "m"⟩] "q" 4 = [⟨"a", "m", none⟩] :=
  ⟨by decide,
   (C3_no_merge ⟨some "key", none, none, some "emb"⟩ [⟨"b", "m"⟩] "q" 4
      (by decide)).1 [⟨"a", "m", none⟩]⟩

/-- C6: when the vector-index update attempted by `addDocument` fails (for
any reason and any configuration), the operation still appends the chunks
to the in-memory list, mirrors the list to disk, leaves the vector table
as it was, and returns the chunk count — the failure is never propagated. -/
theorem C6_vector_failure_not_propagated :
    ∀ (splitText : String → List String) (cfg : KB.AIConfig) (e : String)
      (st : KB.KBState) (text meta : String),
      KB.addDocument splitText cfg (.error e) st text meta =
        ({ documents := st.documents ++ (splitText text).map (fun c => ⟨c, meta⟩)
           disk := st.documents ++ (splitText text).map (fun c => ⟨c, meta⟩)
           vectors := st.vectors }, (splitText text).length) := by
  intro splitText cfg e st text meta
  unfold KB.addDocument
  cases hc : KB.embeddingConfigured cfg <;> simp [hc]

/-- Any result of `MLKB.search` comes from the document list of one of the
requested layers. -/
theorem mem_search_layers
    (st : MLKB.MLState) (p : MLKB.KBDocument → Bool) (x : MLKB.KBDocument) :
    ∀ (layers : List MLKB.KBLayer) (acc : List MLKB.KBDocument),
      x ∈ layers.foldl (fun results l =>
          results ++ (st.documents l).filter p) acc →
      x ∈ acc ∨ ∃ l, l ∈ layers ∧ x ∈ st.documents l := by
  intro layers
  induction layers with
  | nil =>
    intro acc h
    exact Or.inl h
  | cons l ls ih =>
    intro acc h
    rcases ih (acc ++ (st.documents l).filter p) h with hacc | ⟨l', hl', hx⟩
    · rcases List.mem_append.mp hacc with h1 | h2
      · exact Or.inl h1
      · exact Or.inr ⟨l, List.mem_cons_self l ls, List.mem_of_mem_filter h2⟩
    · exact Or.inr ⟨l', List.mem_cons_of_mem l hl', hx⟩

/-- C7: on a layer-consistent state, a document added to layer `A` is never
returned by a search scoped to a list of layers that does not contain `A`. -/
theorem C7_layer_isolation :
    ∀ (st : MLKB.MLState) (A : MLKB.KBLayer) (d : MLKB.NewDoc) (now : Nat)
      (rand : String) (q : String) (layers : List MLKB.KBLayer),
      MLKB.WellFormed st → A ∉ layers →
      MLKB.mkFullDoc A d now rand ∉
        MLKB.search (MLKB.addDocument st A d now rand).2 q layers := by
  intro st A d now rand q layers hwf hA hmem
  unfold MLKB.search at hmem
  rcases mem_search_layers _ _ _ layers [] hmem with h | ⟨l, hl, hx⟩
  · cases h
  · by_cases hlA : l = A
    · exact hA (hlA ▸ hl)
    · have hmemold : MLKB.mkFullDoc A d now rand ∈ st.documents l := by
        simpa [MLKB.addDocument, hlA] using hx
      have hlayer := hwf l _ hmemold
      have : A = l := by simpa [MLKB.mkFullDoc] using hlayer
      exact hlA this.symm

/-- C7 witness: a document added to the core layer is invisible to a search
scoped to the conversation layer only. -/
theorem C7_layer_isolation_witness :
    (MLKB.KBLayer.core ∉ ([MLKB.KBLayer.conversation] : List MLKB.KBLayer)) ∧
    MLKB.mkFullDoc .core ⟨"t", "c", ⟨none, none, none, 0, 0, none, none⟩⟩ 5 "r" ∉
      MLKB.search
        (MLKB.addDocument ⟨fun _ => [], fun _ => []⟩ .core
          ⟨"t", "c", ⟨none, none, none, 0, 0, none, none⟩⟩ 5 "r").2
        "q" [.conversation] :=
  ⟨by decide,
   C7_layer_isolation ⟨fun _ => [], fun _ => []⟩ .core
     ⟨"t", "c", ⟨none, none, none, 0, 0, none, none⟩⟩ 5 "r" "q" [.conversation]
     (by intro l x h; cases h) (by decide)⟩

/-- `updateFirst` misses when no stored document carries the id. -/
theorem updateFirst_none (id : String) (u : MLKB.DocUpdates) (now : Nat) :
    ∀ docs : List MLKB.KBDocument, (∀ d ∈ docs, d.id ≠ id) →
      MLKB.updateFirst id u now docs = none := by
  intro docs
  induction docs with
  | nil => intro _; rfl
  | cons d ds ih =>
    intro h
    have hd : d.id ≠ id := h d (List.mem_cons_self d ds)
    simp only [MLKB.updateFirst, if_neg hd]
    rw [ih (fun x hx => h x (List.mem_cons_of_mem d hx))]
    rfl

/-- `updateFirst` replaces exactly the first document carrying the id. -/
theorem updateFirst_found (id : String) (u : MLKB.DocUpdates) (now : Nat)
    (old : MLKB.KBDocument) (post : List MLKB.KBDocument) (hold : old.id = id) :
    ∀ pre : List MLKB.KBDocument, (∀ d ∈ pre, d.id ≠ id) →
      MLKB.updateFirst id u now (pre ++ old :: post) =
        some (pre ++ MLKB.mergeDoc old u now :: post) := by
  intro pre
  induction pre with
  | nil =>
    intro _
    simp [MLKB.updateFirst, hold]
  | cons p ps ih =>
    intro h
    have hp : p.id ≠ id := h p (List.mem_cons_self p ps)
    simp only [List.cons_append, MLKB.updateFirst, if_neg hp, List.append_eq]
    rw [ih (fun x hx => h x (List.mem_cons_of_mem p hx))]
    rfl

/-- C10: `updateDocument` returns `false` and leaves the whole state (every
layer's in-memory list and on-disk file) unchanged when no document carries
the id; when exactly one document carries it, it returns `true`, replaces
that document alone with the spread-merged record, rewrites only that
layer's file, and stamps `metadata.updatedAt` with the current time. -/
theorem C10_update_document :
    (∀ (st : MLKB.MLState) (id : String) (u : MLKB.DocUpdates) (now : Nat),
      (∀ l d, d ∈ st.documents l → d.id ≠ id) →
      MLKB.updateDocument st id u now = (false, st)) ∧
    (∀ (st : MLKB.MLState) (id : String) (u : MLKB.DocUpdates) (now : Nat)
       (A : MLKB.KBLayer) (pre post : List MLKB.KBDocument) (old : MLKB.KBDocument),
      st.documents A = pre ++ old :: post →
      old.id = id →
      (∀ d ∈ pre, d.id ≠ id) →
      (∀ l, l ≠ A → ∀ d ∈ st.documents l, d.id ≠ id) →
      MLKB.updateDocument st id u now =
        (true,
         { documents := fun l =>
             if l = A then pre ++ MLKB.mergeDoc old u now :: post
             else st.documents l
           disk := fun l =>
             if l = A then pre ++ MLKB.mergeDoc old u now :: post
             else st.disk l }) ∧
      (MLKB.mergeDoc old u now).metadata.updatedAt = now) := by
  constructor
  · intro st id u now h
    have h1 := updateFirst_none id u now (st.documents .core) (h .core)
    have h2 := updateFirst_none id u now (st.documents .conversation) (h .conversation)
    have h3 := updateFirst_none id u now (st.documents .generated) (h .generated)
    simp [MLKB.updateDocument, MLKB.layerOrder, MLKB.updateInLayers, h1, h2, h3]
  · intro st id u now A pre post old hA hold hpre hothers
    refine ⟨?_, rfl⟩
    have hfound :
        MLKB.updateFirst id u now (st.documents A) =
          some (pre ++ MLKB.mergeDoc old u now :: post) := by
      rw [hA]
      exact updateFirst_found id u now old post hold pre hpre
    cases A with
    | core =>
      simp [MLKB.updateDocument, MLKB.layerOrder, MLKB.updateInLayers, hfound]
    | conversation =>
      have h1 := updateFirst_none id u now (st.documents .core)
        (hothers .core (by decide))
      simp [MLKB.updateDocument, MLKB.layerOrder, MLKB.updateInLayers, h1, hfound]
    | generated =>
      have h1 := updateFirst_none id u now (st.documents .core)
        (hothers .core (by decide))
      have h2 := updateFirst_none id u now (st.documents .conversation)
        (hothers .conversation (by decide))
      simp [MLKB.updateDocument, MLKB.layerOrder, MLKB.updateInLayers, h1, h2, hfound]

/-- C10 witness: both branches at concrete inputs — a miss on a one-document
state, and a hit that restamps `updatedAt`. -/
theorem C10_update_document_witness :
    MLKB.updateDocument
        ⟨fun l => if l = .core then
            [⟨"core-1-r", .core, "t", "c", ⟨none, none, none, 1, 1, none, none⟩⟩]
          else [], fun _ => []⟩
        "nope" {} 9 =
      (false,
       ⟨fun l => if l = .core then
           [⟨"core-1-r", .core, "t", "c", ⟨none, none, none, 1, 1, none, none⟩⟩]
         else [], fun _ => []⟩) ∧
    (MLKB.mergeDoc ⟨"core-1-r", .core, "t", "c", ⟨none, none, none, 1, 1, none, none⟩⟩
        {} 9).metadata.updatedAt = 9 := by
  constructor
  · exact (C10_update_document.1
      ⟨fun l => if l = .core then
          [⟨"core-1-r", .core, "t", "c", ⟨none, none, none, 1, 1, none, none⟩⟩]
        else [], fun _ => []⟩
      "nope" {} 9
      (by
        intro l d hd
        by_cases hl : l = MLKB.KBLayer.core
        · subst hl
          simp at hd
          subst hd
          decide
        · simp [hl] at hd))
  · exact (C10_update_document.2
      ⟨fun l => if l = .core then
          [⟨"core-1-r", .core, "t", "c", ⟨none, none, none, 1, 1, none, none⟩⟩]
        else [], fun _ => []⟩
      "core-1-r" {} 9 .core [] []
      ⟨"core-1-r", .core, "t", "c", ⟨none, none, none, 1, 1, none, none⟩⟩
      (by simp) rfl (by intro d hd; cases hd)
      (by intro l hl d hd; simp [hl] at hd)).2

/-- C8 (claim as stated, counterexample): a reachable state whose current
conversation holds one message, on which `getRecentMessages(0)` returns
that message (JS `slice(-0)` is `slice(0)`) instead of the last
`min(0, 1) = 0` messages, i.e. `[]`. -/
theorem C8_counterexample :
    Conv.getRecentMessages
        (Conv.applyOp ⟨fun _ => none, none⟩ (.add 1 "r" .user "hi" none)) 0 ≠ [] ∧
    (Conv.getRecentMessages
        (Conv.applyOp ⟨fun _ => none, none⟩ (.add 1 "r" .user "hi" none)) 0).length = 1 := by
  refine ⟨by decide, by decide⟩

/-- C8 (amended): conversations are append-only — under fresh generated ids,
no manager operation changes an already-stored message, any surviving
conversation keeps its old message list as a prefix — and
`getRecentMessages(n)` for `n ≥ 1` returns the last `min(n, count)`
messages of the current conversation in original order, `[]` when there is
no current conversation, and (because `slice(-0)` is `slice(0)`) the whole
message list for `n = 0`. -/
theorem C8_append_only_recent :
    (∀ (st : Conv.ConvState) (op : Conv.ConvOp), Conv.FreshIds st op →
      ∀ (id : String) (conv conv' : Conv.Conversation),
        st.conversations id = some conv →
        (Conv.applyOp st op).conversations id = some conv' →
        ∃ t, conv'.messages = conv.messages ++ t) ∧
    (∀ (st : Conv.ConvState) (n : Nat) (c : Conv.Conversation), 1 ≤ n →
      Conv.getCurrentConversation st = some c →
      Conv.getRecentMessages st n = c.messages.drop (c.messages.length - n)) ∧
    (∀ (st : Conv.ConvState) (n : Nat),
      Conv.getCurrentConversation st = none → Conv.getRecentMessages st n = []) ∧
    (∀ (st : Conv.ConvState) (c : Conv.Conversation),
      Conv.getCurrentConversation st = some c →
      Conv.getRecentMessages st 0 = c.messages) := by
  refine ⟨?_, ?_, ?_, ?_⟩
  · intro st op hfresh id conv conv' hbefore hafter
    obtain ⟨convs, curr⟩ := st
    dsimp only at hbefore
    cases op with
    | create now title =>
      simp only [Conv.FreshIds] at hfresh
      simp only [Conv.applyOp, Conv.createConversation, Conv.putConv] at hafter
      by_cases hid : id = toString now
      · rw [hid, hfresh] at hbefore
        cases hbefore
      · simp only [if_neg hid] at hafter
        rw [hbefore] at hafter
        cases hafter
        exact ⟨[], by simp⟩
    | add now rand role content atts =>
      simp only [Conv.FreshIds] at hfresh
      simp only [Conv.applyOp] at hafter
      cases curr with
      | none =>
        have hfr : convs (toString now) = none := hfresh rfl
        simp only [Conv.addMessage, Conv.createConversation, Conv.putConv,
          Option.isNone_none, if_true] at hafter
        by_cases hid : id = toString now
        · rw [hid, hfr] at hbefore
          cases hbefore
        · simp only [hid, if_false, reduceIte] at hafter
          rw [hbefore] at hafter
          cases hafter
          exact ⟨[], by simp⟩
      | some cid =>
        simp only [Conv.addMessage, Option.isNone_some, Bool.false_eq_true,
          if_false, reduceIte] at hafter
        cases hc : convs cid with
        | none =>
          simp only [hc] at hafter
          rw [hbefore] at hafter
          cases hafter
          exact ⟨[], by simp⟩
        | some cur =>
          simp only [hc, Conv.putConv] at hafter
          by_cases hid : id = cid
          · rw [hid] at hbefore
            rw [hbefore] at hc
            cases hc
            simp only [hid, if_pos] at hafter
            refine ⟨[{ id := toString now ++ "-" ++ rand, role := role,
                       content := content, timestamp := now,
                       attachments := atts }], ?_⟩
            split at hafter <;> (cases hafter; rfl)
          · simp only [hid, if_false, reduceIte] at hafter
            rw [hbefore] at hafter
            cases hafter
            exact ⟨[], by simp⟩
    | updTitle i title =>
      simp only [Conv.applyOp, Conv.updateConversationTitle] at hafter
      cases hc : convs i with
      | none =>
        simp only [hc] at hafter
        rw [hbefore] at hafter
        cases hafter
        exact ⟨[], by simp⟩
      | some c =>
        simp only [hc, Conv.putConv] at hafter
        by_cases hid : id = i
        · rw [hid] at hbefore
          rw [hbefore] at hc
          cases hc
          simp only [hid, if_pos] at hafter
          cases hafter
          exact ⟨[], by simp⟩
        · simp only [hid, if_false, reduceIte] at hafter
          rw [hbefore] at hafter
          cases hafter
          exact ⟨[], by simp⟩
    | switch i =>
      simp only [Conv.applyOp, Conv.switchConversation] at hafter
      by_cases hs : (convs i).isSome = true
      · simp only [hs, if_true, reduceIte] at hafter
        rw [hbefore] at hafter
        cases hafter
        exact ⟨[], by simp⟩
      · simp only [hs, Bool.false_eq_true, if_false, reduceIte] at hafter
        rw [hbefore] at hafter
        cases hafter
        exact ⟨[], by simp⟩
    | del i =>
      simp only [Conv.applyOp, Conv.deleteConversation] at hafter
      cases hc : convs i with
      | none =>
        simp only [hc] at hafter
        rw [hbefore] at hafter
        cases hafter
        exact ⟨[], by simp⟩
      | some c =>
        simp only [hc] at hafter
        by_cases hid : id = i
        · simp only [hid, if_pos] at hafter
          cases hafter
        · simp only [hid, if_false, reduceIte] at hafter
          rw [hbefore] at hafter
          cases hafter
          exact ⟨[], by simp⟩
  · intro st n c hn hcur
    have hn0 : n ≠ 0 := by omega
    simp [Conv.getRecentMessages, hcur, jsSliceLast, hn0]
  · intro st n hcur
    simp [Conv.getRecentMessages, hcur]
  · intro st c hcur
    simp [Conv.getRecentMessages, hcur, jsSliceLast]

/-- C8 witness: `getRecentMessages(2)` on a three-message conversation
returns the last two messages in order. -/
theorem C8_append_only_recent_witness :
    Conv.getRecentMessages
        ⟨fun i => if i = "7" then
            some ⟨"7", "t",
              [⟨"a", .user, "1", 0, none⟩, ⟨"b", .assistant, "2", 1, none⟩,
               ⟨"c", .user, "3", 2, none⟩], 0, 2⟩
          else none, some "7"⟩ 2 =
      [⟨"b", .assistant, "2", 1, none⟩, ⟨"c", .user, "3", 2, none⟩] :=
  (C8_append_only_recent.2.1
    ⟨fun i => if i = "7" then
        some ⟨"7", "t",
          [⟨"a", .user, "1", 0, none⟩, ⟨"b", .assistant, "2", 1, none⟩,
           ⟨"c", .user, "3", 2, none⟩], 0, 2⟩
      else none, some "7"⟩ 2
    ⟨"7", "t",
      [⟨"a", .user, "1", 0, none⟩, ⟨"b", .assistant, "2", 1, none⟩,
       ⟨"c", .user, "3", 2, none⟩], 0, 2⟩
    (by decide) (by decide)).trans (by decide)

/-- A registered tool name never triggers the final-answer pseudo-tool
branch. -/
theorem real_not_pseudo (name : String)
    (h : Agent.realToolNames.contains name = true) :
    Agent.isPseudoTool (some (.jsStr name)) = false := by
  have hm : name ∈ Agent.realToolNames := by
    simpa using h
  fin_cases hm <;> decide

/-- When every remaining model invocation parses to a registered tool call,
the loop dispatches once per iteration until the budget is spent and exits
with the initial empty `finalResponse`. -/
theorem loopAux_all_tools
    (model toolOut : Nat → String)
    (jsMatch : Agent.ToolRegex → String → Option String)
    (jsonParse : String → Option Agent.JsVal) :
    ∀ (fuel iter : Nat) (disp : List (String × Agent.JsVal))
      (msgs : List Agent.AgentMsg),
      fuel + iter = Agent.MAX_ITERATIONS →
      (∀ k, k < Agent.MAX_ITERATIONS →
        Agent.YieldsRealToolCall jsMatch jsonParse (model k)) →
      (Agent.loopAux model toolOut jsMatch jsonParse fuel iter disp msgs).answer =
          .jsStr "" ∧
      (Agent.loopAux model toolOut jsMatch jsonParse fuel iter disp msgs).iterations =
          Agent.MAX_ITERATIONS ∧
      (Agent.loopAux model toolOut jsMatch jsonParse fuel iter disp
          msgs).dispatched.length = disp.length + fuel := by
  intro fuel
  induction fuel with
  | zero =>
    intro iter disp msgs hsum H
    exact ⟨rfl, by simpa [Agent.loopAux] using by omega, by simp [Agent.loopAux]⟩
  | succ fuel ih =>
    intro iter disp msgs hsum H
    have hiter : iter < Agent.MAX_ITERATIONS := by omega
    obtain ⟨payload, data, name, hex, hjp, hnm, hrl⟩ := H iter hiter
    have hps : Agent.isPseudoTool (some (.jsStr name)) = false :=
      real_not_pseudo name hrl
    have hrt : Agent.isRealTool (some (.jsStr name)) = true := by
      simpa [Agent.isRealTool] using hrl
    obtain ⟨a1, a2, a3⟩ := ih (iter + 1) (disp ++ [(name, Agent.jsArgs data)])
      ((msgs ++ [.assistant (model iter)]) ++
        [.human (Agent.obsMsg name (toolOut iter))])
      (by omega) H
    simp only [Agent.loopAux, hex, hjp, hnm, hps, hrt, Bool.false_eq_true,
      if_false, if_true, reduceIte]
    refine ⟨a1, a2, ?_⟩
    rw [a3]
    simp
    omega

/-- C2: whenever every model invocation yields a parseable call of a
registered tool (never a final answer), the agent loop stops after exactly
`MAX_ITERATIONS = 15` iterations — having dispatched exactly 15 tool calls
— and returns the fixed apology message. -/
theorem C2_iteration_limit :
    ∀ (model toolOut : Nat → String)
      (jsMatch : Agent.ToolRegex → String → Option String)
      (jsonParse : String → Option Agent.JsVal) (initMsgs : List Agent.AgentMsg),
      (∀ k, k < Agent.MAX_ITERATIONS →
        Agent.YieldsRealToolCall jsMatch jsonParse (model k)) →
      (Agent.chatAgentLoop model toolOut jsMatch jsonParse initMsgs).answer =
          .jsStr Agent.iterationLimitMsg ∧
      (Agent.chatAgentLoop model toolOut jsMatch jsonParse initMsgs).iterations =
          Agent.MAX_ITERATIONS ∧
      (Agent.chatAgentLoop model toolOut jsMatch jsonParse
          initMsgs).dispatched.length = Agent.MAX_ITERATIONS := by
  intro model toolOut jsMatch jsonParse initMsgs H
  obtain ⟨ha, hi, hd⟩ := loopAux_all_tools model toolOut jsMatch jsonParse
    Agent.MAX_ITERATIONS 0 [] initMsgs (by simp) H
  refine ⟨?_, ?_, ?_⟩ <;>
    simp [Agent.chatAgentLoop, ha, hi, hd, Agent.truthy]

/-- C2 witness: a model that always emits a `read_file` tool call hits the
iteration limit and yields the apology. -/
theorem C2_iteration_limit_witness :
    (∀ k, k < Agent.MAX_ITERATIONS →
      Agent.YieldsRealToolCall (fun _ _ => some "CALLTOOL")
        (fun s => if s = "CALLTOOL" then
            some (.jsObj [("tool", .jsStr "read_file")]) else none)
        ((fun _ : Nat => "CALLTOOL") k)) ∧
    (Agent.chatAgentLoop (fun _ => "CALLTOOL") (fun _ => "out")
        (fun _ _ => some "CALLTOOL")
        (fun s => if s = "CALLTOOL" then
            some (.jsObj [("tool", .jsStr "read_file")]) else none)
        []).answer = .jsStr Agent.iterationLimitMsg := by
  have H : ∀ k, k < Agent.MAX_ITERATIONS →
      Agent.YieldsRealToolCall (fun _ _ => some "CALLTOOL")
        (fun s => if s = "CALLTOOL" then
            some (.jsObj [("tool", .jsStr "read_file")]) else none)
        ((fun _ : Nat => "CALLTOOL") k) := by
    intro k _
    exact ⟨"CALLTOOL", .jsObj [("tool", .jsStr "read_file")], "read_file",
      rfl, rfl, rfl, rfl⟩
  exact ⟨H, (C2_iteration_limit (fun _ => "CALLTOOL") (fun _ => "out")
    (fun _ _ => some "CALLTOOL")
    (fun s => if s = "CALLTOOL" then
        some (.jsObj [("tool", .jsStr "read_file")]) else none)
    [] H).1⟩

/-- C4: when the extraction cascade finds a tool-call payload but
`JSON.parse` fails on it, the loop neither throws nor dispatches: it
terminates immediately with the raw model text as the final answer. -/
theorem C4_malformed_json_soft :
    ∀ (model toolOut : Nat → String)
      (jsMatch : Agent.ToolRegex → String → Option String)
      (jsonParse : String → Option Agent.JsVal) (initMsgs : List Agent.AgentMsg)
      (payload : String),
      Agent.extractToolJson jsMatch (model 0) = some payload →
      jsonParse (Agent.cleanupJson payload) = none →
      (Agent.chatAgentLoop model toolOut jsMatch jsonParse initMsgs).answer =
          .jsStr (model 0) ∧
      (Agent.chatAgentLoop model toolOut jsMatch jsonParse
          initMsgs).dispatched = [] ∧
      (Agent.chatAgentLoop model toolOut jsMatch jsonParse
          initMsgs).iterations = 0 := by
  intro model toolOut jsMatch jsonParse initMsgs payload hex hjp
  have hloop :
      Agent.loopAux model toolOut jsMatch jsonParse Agent.MAX_ITERATIONS 0 []
          initMsgs =
        ⟨.jsStr (model 0), [], 0, initMsgs ++ [.assistant (model 0)]⟩ := by
    rw [show Agent.MAX_ITERATIONS = 14 + 1 from rfl]
    simp only [Agent.loopAux, hex, hjp]
  simp only [Agent.chatAgentLoop, hloop]
  simp [Agent.MAX_ITERATIONS]

/-- C4 witness: an extracted payload rejected by `JSON.parse` falls back to
the raw text. -/
theorem C4_malformed_json_soft_witness :
    Agent.extractToolJson (fun _ _ => some "NOTJSON") "raw model text" =
        some "NOTJSON" ∧
    (fun _ : String => (none : Option Agent.JsVal))
        (Agent.cleanupJson "NOTJSON") = none ∧
    (Agent.chatAgentLoop (fun _ => "raw model text") (fun _ => "out")
        (fun _ _ => some "NOTJSON") (fun _ => none) []).answer =
      .jsStr "raw model text" ∧
    (Agent.chatAgentLoop (fun _ => "raw model text") (fun _ => "out")
        (fun _ _ => some "NOTJSON") (fun _ => none) []).dispatched = [] :=
  ⟨rfl, rfl,
   (C4_malformed_json_soft (fun _ => "raw model text") (fun _ => "out")
      (fun _ _ => some "NOTJSON") (fun _ => none) [] "NOTJSON" rfl rfl).1,
   (C4_malformed_json_soft (fun _ => "raw model text") (fun _ => "out")
      (fun _ _ => some "NOTJSON") (fun _ => none) [] "NOTJSON" rfl rfl).2.1⟩

/-- C5: a parsed tool call whose control-token-stripped name is a
final-answer alias ('respond', 'answer', 'final_answer', 'response') or
missing/null/undefined dispatches nothing: the loop terminates at once
with the payload extracted by `extractAnswerPayload` (the
response/answer/content field, else string-valued args, else the full
model text, control tokens stripped). -/
theorem C5_pseudo_tool_absorbed :
    ∀ (model toolOut : Nat → String)
      (jsMatch : Agent.ToolRegex → String → Option String)
      (jsonParse : String → Option Agent.JsVal) (initMsgs : List Agent.AgentMsg)
      (payload : String) (data : Agent.JsVal),
      Agent.extractToolJson jsMatch (model 0) = some payload →
      jsonParse (Agent.cleanupJson payload) = some data →
      Agent.isPseudoTool (Agent.normalizeToolName (Agent.getField data "tool")) =
        true →
      (Agent.chatAgentLoop model toolOut jsMatch jsonParse initMsgs).answer =
          Agent.extractAnswerPayload data (model 0) ∧
      (Agent.chatAgentLoop model toolOut jsMatch jsonParse
          initMsgs).dispatched = [] ∧
      (Agent.chatAgentLoop model toolOut jsMatch jsonParse
          initMsgs).iterations = 0 := by
  intro model toolOut jsMatch jsonParse initMsgs payload data hex hjp hps
  have hloop :
      Agent.loopAux model toolOut jsMatch jsonParse Agent.MAX_ITERATIONS 0 []
          initMsgs =
        ⟨Agent.extractAnswerPayload data (model 0), [], 0,
         initMsgs ++ [.assistant (model 0)]⟩ := by
    rw [show Agent.MAX_ITERATIONS = 14 + 1 from rfl]
    simp only [Agent.loopAux, hex, hjp, hps, if_true, reduceIte]
  simp only [Agent.chatAgentLoop, hloop]
  simp [Agent.MAX_ITERATIONS]

/-- C5 witness: an invented `respond` pseudo-tool carrying a `response`
field terminates the loop with that payload and no dispatch. -/
theorem C5_pseudo_tool_absorbed_witness :
    Agent.isPseudoTool (Agent.normalizeToolName (Agent.getField
        (.jsObj [("tool", .jsStr "respond"), ("response", .jsStr "Hello there")])
        "tool")) = true ∧
    (Agent.chatAgentLoop (fun _ => "MODELTEXT") (fun _ => "out")
        (fun _ _ => some "PAYLOAD")
        (fun s => if s = "PAYLOAD" then
            some (.jsObj [("tool", .jsStr "respond"),
                          ("response", .jsStr "Hello there")])
          else none) []).answer = .jsStr "Hello there" ∧
    (Agent.chatAgentLoop (fun _ => "MODELTEXT") (fun _ => "out")
        (fun _ _ => some "PAYLOAD")
        (fun s => if s = "PAYLOAD" then
            some (.jsObj [("tool", .jsStr "respond"),
                          ("response", .jsStr "Hello there")])
          else none) []).dispatched = [] :=
  ⟨rfl,
   ((C5_pseudo_tool_absorbed (fun _ => "MODELTEXT") (fun _ => "out")
      (fun _ _ => some "PAYLOAD")
      (fun s => if s = "PAYLOAD" then
          some (.jsObj [("tool", .jsStr "respond"),
                        ("response", .jsStr "Hello there")])
        else none) [] "PAYLOAD"
      (.jsObj [("tool", .jsStr "respond"), ("response", .jsStr "Hello there")])
      rfl rfl rfl).1).trans rfl,
   (C5_pseudo_tool_absorbed (fun _ => "MODELTEXT") (fun _ => "out")
      (fun _ _ => some "PAYLOAD")
      (fun s => if s = "PAYLOAD" then
          some (.jsObj [("tool", .jsStr "respond"),
                        ("response", .jsStr "Hello there")])
        else none) [] "PAYLOAD"
      (.jsObj [("tool", .jsStr "respond"), ("response", .jsStr "Hello there")])
      rfl rfl rfl).2.1⟩

/-- C9: if the spawned Python subprocess has neither closed nor failed to
start within the 10-second wall-clock timeout, the promise resolves with
the fixed timeout observation string — the always-armed timer's `kill()`
terminates the still-running subprocess and its `resolve` wins the race —
rather than hanging. -/
theorem C9_python_timeout :
    ∀ (b : Py.ProcBehavior),
      (∀ t code out err, b.closeEv = some (t, code, out, err) →
        Py.TIMEOUT_MS < t) →
      (∀ t m, b.errEv = some (t, m) → Py.TIMEOUT_MS < t) →
      Py.runCodeResult b = some (.resolved Py.timeoutMsg) ∧
      Py.killedByTimeout b = true := by
  intro b hclose herr
  obtain ⟨ce, ee⟩ := b
  cases ce with
  | none =>
    cases ee with
    | none => exact ⟨rfl, rfl⟩
    | some e =>
      obtain ⟨t, m⟩ := e
      have ht : Py.TIMEOUT_MS < t := herr t m rfl
      have ht' : ¬ t ≤ Py.TIMEOUT_MS := by omega
      refine ⟨?_, rfl⟩
      simp [Py.runCodeResult, Py.settlements, Py.firstSettlement, ht']
  | some c =>
    obtain ⟨t, code, out, err⟩ := c
    have ht : Py.TIMEOUT_MS < t := hclose t code out err rfl
    have ht' : ¬ t ≤ Py.TIMEOUT_MS := by omega
    cases ee with
    | none =>
      refine ⟨?_, ?_⟩
      · simp [Py.runCodeResult, Py.settlements, Py.firstSettlement, ht']
      · simp [Py.killedByTimeout, ht]
    | some e =>
      obtain ⟨t2, m⟩ := e
      have ht2 : Py.TIMEOUT_MS < t2 := herr t2 m rfl
      have ht2' : ¬ t2 ≤ Py.TIMEOUT_MS := by omega
      refine ⟨?_, ?_⟩
      · simp [Py.runCodeResult, Py.settlements, Py.firstSettlement, ht', ht2']
      · simp [Py.killedByTimeout, ht]

/-- C9 witness: a subprocess that would only close at 20 seconds is killed
and the call resolves with the timeout observation. -/
theorem C9_python_timeout_witness :
    Py.runCodeResult ⟨some (20000, some 0, "ok", ""), none⟩ =
      some (.resolved Py.timeoutMsg) ∧
    Py.killedByTimeout ⟨some (20000, some 0, "ok", ""), none⟩ = true :=
  C9_python_timeout ⟨some (20000, some 0, "ok", ""), none⟩
    (by intro t code out err h; cases h; decide)
    (by intro t m h; cases h)
